import Mathlib

/-!
Verification development for the Doremi KLV codec and command-dispatch layer
(`dcitools/devices/doremi/commands.py`).

Byte strings are modelled as `List Nat` (each entry a byte value below 256
wherever an encoder produces it).  The process-wide mutable counter
`REQUEST_ID` is modelled by explicit state passing: every function that reads
or advances it takes the current counter value and returns the new one.
Field values are kept abstract in a type parameter `V`; the catalogs of
request/response message definitions are external collaborators and appear as
function parameters.
-/

namespace Doremi

/-- Byte strings: lists of byte values. -/
abbrev Bytes := List Nat

/-- Modelled from the spec: `toolbox.bytes.int_to_bytes(n, size)` is not under
`src/` (the `toolbox` package is an external collaborator).  Spec §4.3/§6: the
big-endian encoding of `n` on `size` bytes. -/
def int_to_bytes (n : Nat) (size : Nat) : Bytes :=
  (List.range size).map (fun i => n / 256 ^ (size - 1 - i) % 256)

/-- Modelled from the spec: `toolbox.bytes.bytes_to_int` is not under `src/`.
Big-endian interpretation of a byte string as a natural number. -/
def bytes_to_int (data : Bytes) : Nat :=
  data.foldl (fun acc b => acc * 256 + b) 0

/-- Minimal number of big-endian bytes needed to hold `n` (at least one):
the least `k` with `n < 256 ^ k`. -/
def ber_byte_count (n : Nat) : Nat := Nat.log 256 n + 1

/-- Modelled from the spec: `toolbox.bytes.encode_ber` is not under `src/`.
Spec §4.1 `encode_length`: short form (one byte) for `n < 128`; long form
`0x80 + k` followed by the minimal `k` big-endian bytes of `n` otherwise. -/
def encode_ber (n : Nat) : Bytes :=
  if n < 128 then [n]
  else (128 + ber_byte_count n) :: int_to_bytes n (ber_byte_count n)

/-- Modelled from the spec: `toolbox.bytes.decode_ber` is not under `src/`.
Spec §4.1 `decode_length`: returns the decoded length and the number of bytes
consumed, or `none` (`MalformedLength`) when the input is truncated. -/
def decode_ber (data : Bytes) : Option (Nat × Nat) :=
  match data with
  | [] => none
  | b :: rest =>
    if b < 128 then some (b, 1)
    else
      let k := b - 128
      if rest.length < k then none
      else some (bytes_to_int (rest.take k), 1 + k)

/-- Hex digit characters `0`-`9`, `a`-`f` for a value below 16. -/
def hex_digit (n : Nat) : Char :=
  if n < 10 then Char.ofNat (48 + n) else Char.ofNat (87 + n)

/-- Two hex characters for one byte. -/
def byte_to_hex (b : Nat) : String :=
  String.mk [hex_digit (b / 16 % 16), hex_digit (b % 16)]

/-- Modelled from the spec: `toolbox.bytes.bytes_to_hex` is not under `src/`.
Standard hexlify: two lowercase hex characters per byte, no separators. -/
def bytes_to_hex : Bytes → String
  | [] => ""
  | b :: rest => byte_to_hex b ++ bytes_to_hex rest

/-- Python string slicing `s[0:n]` on ASCII strings: the first `n` characters. -/
def str_take (s : String) (n : Nat) : String := String.mk (s.data.take n)

/-- Modelled from the spec: the `MessageDefinition` field-descriptor class
(`dcitools/devices/doremi/message.py`) is not under `src/`.  Spec §3 Field
Descriptor: name, byte range (`end` used on decode only), an encode and a
decode function, and an optional value-to-text translation table.
`commands.py` reads the attributes `name`, `start`, `end`, `func` (the
per-direction encode/decode function supplied by the catalog) and
`text_translate`.  The table is a Python dict or `None`; it is only ever used
after the truthiness test `if elem.text_translate:`, under which `None` and
the empty dict behave identically, so an association list with `[]` for
"absent" is observationally equivalent. -/
structure Element (V : Type) where
  name : String
  start : Nat
  endPos : Nat
  func_encode : V → Bytes
  func_decode : Bytes → V
  text_translate : List (V × String)

/-- Modelled from the spec: the `MessageDefinition` class is not under `src/`.
Spec §3 Message Schema: a key, a human-readable name and an ordered list of
field descriptors.  `commands.py` reads `key`, `name` and `elements`. -/
structure MessageDefinition (V : Type) where
  name : String
  key : Bytes
  elements : List (Element V)

/-- The fixed 13-byte KLV header constant (`HEADER` in `commands.py`). -/
def HEADER : Bytes :=
  [0x06, 0x0E, 0x2B, 0x34, 0x02, 0x05, 0x01, 0x0A, 0x0E, 0x10, 0x01, 0x01, 0x01]

/-- `get_new_request_id`: the global counter `REQUEST_ID` is modelled as the
explicit argument; returns the value produced and the new counter (in the
source both are the same mutated global). -/
def get_new_request_id (request_id : Nat) : Nat × Nat :=
  let request_id := (request_id + 1) % 60000
  (request_id, request_id)

/-- `get_new_request_id_bytes`: the new id as 4 big-endian bytes, plus the new
counter value. -/
def get_new_request_id_bytes (request_id : Nat) : Bytes × Nat :=
  let p := get_new_request_id request_id
  (int_to_bytes p.1 4, p.2)

/-- Python dict lookup `kwargs[name]` guarded by `name in kwargs.keys()`:
first binding of `name` in the association list, if any. -/
def kwargs_get {V : Type} (kwargs : List (String × V)) (name : String) : Option V :=
  match kwargs.find? (fun p => decide (p.1 = name)) with
  | some p => some p.2
  | none => none

/-- Python dict lookup with default: `m.get(k, default)`. -/
def dict_get {V : Type} [DecidableEq V] (m : List (V × String)) (k : V)
    (dflt : String) : String :=
  match m.find? (fun p => decide (p.1 = k)) with
  | some p => p.2
  | none => dflt

/-- `collections.OrderedDict` assignment `result[k] = v`: overwrite in place
when `k` is already bound, otherwise append at the end. -/
def od_insert {A : Type} (m : List (String × A)) (k : String) (v : A) :
    List (String × A) :=
  if m.any (fun p => decide (p.1 = k)) then
    m.map (fun p => if p.1 = k then (k, v) else p)
  else m ++ [(k, v)]

/-- A parsed value: either a decoded field value or a `<name>_text` string. -/
abbrev ParsedVal (V : Type) := V ⊕ String

/-- The `for elem in message.elements` loop of `parse_message`, with the
`OrderedDict` under construction threaded through. -/
def parse_go {V : Type} [DecidableEq V] (payload : Bytes) :
    List (Element V) → List (String × ParsedVal V) → List (String × ParsedVal V)
  | [], result => result
  | elem :: rest, result =>
    let payload_chunk := (payload.drop elem.start).take (elem.endPos - elem.start)
    let value := elem.func_decode payload_chunk
    let result1 := od_insert result elem.name (Sum.inl value)
    let result2 :=
      if elem.text_translate.isEmpty then result1
      else od_insert result1 (elem.name ++ "_text")
        (Sum.inr (dict_get elem.text_translate value "unknown value"))
    parse_go payload rest result2

/-- `parse_message(message, payload)`: slice `payload[elem.start:elem.end]`,
decode, store under the field name; additionally store `<name>_text` via the
translation table (with default `"unknown value"`) when the table is truthy. -/
def parse_message {V : Type} [DecidableEq V] (message : MessageDefinition V)
    (payload : Bytes) : List (String × ParsedVal V) :=
  parse_go payload message.elements []

/-- The single error class of the frame constructor: positional arguments
exhausted before every field lacking a named argument was resolved
(an `IndexError` on `args[arg_iterator]` in the source; `MissingArgument`
in the spec's taxonomy). -/
inductive DoremiError where
  | MissingArgument
deriving DecidableEq

/-- The `for element in message.elements` loop of `construct_message`:
resolve each field's value (named argument if present, else the next unused
positional argument), encode it, and collect the encodings in order.
`arg_iterator` is the index of the next unused positional argument. -/
def construct_loop {V : Type} (args : List V) (kwargs : List (String × V)) :
    List (Element V) → Nat → Except DoremiError (List Bytes)
  | [], _ => Except.ok []
  | element :: rest, arg_iterator =>
    match kwargs_get kwargs element.name with
    | some arg =>
      (construct_loop args kwargs rest arg_iterator).map
        (fun tail => element.func_encode arg :: tail)
    | none =>
      match args.get? arg_iterator with
      | some arg =>
        (construct_loop args kwargs rest (arg_iterator + 1)).map
          (fun tail => element.func_encode arg :: tail)
      | none => Except.error DoremiError.MissingArgument

/-- Specification-side companion of `construct_loop`: the resolved argument
values themselves, before encoding. -/
def resolve_loop {V : Type} (args : List V) (kwargs : List (String × V)) :
    List (Element V) → Nat → Except DoremiError (List V)
  | [], _ => Except.ok []
  | element :: rest, arg_iterator =>
    match kwargs_get kwargs element.name with
    | some arg =>
      (resolve_loop args kwargs rest arg_iterator).map (fun tail => arg :: tail)
    | none =>
      match args.get? arg_iterator with
      | some arg =>
        (resolve_loop args kwargs rest (arg_iterator + 1)).map (fun tail => arg :: tail)
      | none => Except.error DoremiError.MissingArgument

/-- `construct_message(message, *args, **kwargs)`: generate a fresh request id
(the counter advances even when construction subsequently fails), resolve and
encode every field, and frame the result as
`HEADER + message.key + encode_ber(len(payload)) + payload` with
`payload = id_bytes + b''.join(payload_values)`.  Returns the frame (or the
propagated error) together with the new counter value. -/
def construct_message {V : Type} (message : MessageDefinition V) (args : List V)
    (kwargs : List (String × V)) (request_id : Nat) :
    Except DoremiError Bytes × Nat :=
  let idp := get_new_request_id_bytes request_id
  match construct_loop args kwargs message.elements 0 with
  | Except.error e => (Except.error e, idp.2)
  | Except.ok payload_values =>
    let payload := idp.1 ++ payload_values.flatten
    let ber := encode_ber payload.length
    (Except.ok (HEADER ++ message.key ++ ber ++ payload), idp.2)

/-- The `Data` segment of `explain_klv`: the payload hex, truncated to its
first 40 characters with an ellipsis marker appended whenever the whole frame
is longer than 40 bytes (`if len(data) > 40`). -/
def klv_short_hex (data : Bytes) (ber_size : Nat) : String :=
  let payload := data.drop (16 + ber_size + 4)
  let short_hex := bytes_to_hex payload
  if data.length > 40 then str_take short_hex 40 ++ "..." else short_hex

/-- The `try/except KeyError` key-name resolution of `explain_klv`: try the
request catalog first, fall back to the response catalog, fail (`none`) when
neither matches.  The catalogs are external collaborators, modelled as
functions from the 3-byte key's hex string to the optional schema name
(`requests.get_by_key(key_hex).name`). -/
def key_name_lookup (requests_by_key responses_by_key : String → Option String)
    (key_hex : String) : Option String :=
  match requests_by_key key_hex with
  | some n => some (n ++ " Request")
  | none =>
    match responses_by_key key_hex with
    | some n => some (n ++ " Response")
    | none => none

/-- `explain_klv(data)`: decompose a full frame into labeled hex segments.
A `KeyError` from both catalogs, or a malformed BER field, propagates as
`none`. -/
def explain_klv (requests_by_key responses_by_key : String → Option String)
    (data : Bytes) : Option String :=
  let header_hex := bytes_to_hex (data.take 13)
  let key_hex := bytes_to_hex ((data.drop 13).take 3)
  do
  let key_name ← key_name_lookup requests_by_key responses_by_key key_hex
  let bp ← decode_ber (data.drop 16)
  let ber_hex := bytes_to_hex ((data.drop 16).take bp.2)
  let payload_start := 16 + bp.2
  let id_hex := bytes_to_hex ((data.drop payload_start).take 4)
  let id := bytes_to_int ((data.drop payload_start).take 4)
  let short_hex := klv_short_hex data bp.2
  pure ("\n             0.......4.......8.......12......16......20......24......28......32\n    Header : "
    ++ header_hex ++ "\n    Key    : " ++ key_hex ++ " (" ++ key_name
    ++ ")\n    Ber    : " ++ ber_hex ++ " (" ++ toString bp.1
    ++ ")\n    ID     : " ++ id_hex ++ " (" ++ toString id
    ++ ")\n    Data   : " ++ short_hex ++ "\n    Command: "
    ++ (header_hex ++ key_hex ++ ber_hex ++ id_hex ++ short_hex) ++ "\n    ")

/-- The transport collaborator's blocking `receive(n)`: the incoming stream is
modelled as a byte list; a read takes the first `n` bytes and leaves the
rest, failing when the stream is too short (premature close). -/
def sock_receive (n : Nat) (stream : Bytes) : Option (Bytes × Bytes) :=
  if n ≤ stream.length then some (stream.take n, stream.drop n) else none

/-- Modelled from the spec: `toolbox.bytes.ber_from_socket` is not under
`src/`.  Spec §4.4: read one byte, then conditionally more bytes, per §4.1
`decode_length`; returns the decoded length, the number of BER bytes, and the
raw BER bytes, plus the remaining stream. -/
def ber_from_socket (stream : Bytes) : Option ((Nat × Nat × Bytes) × Bytes) :=
  match stream with
  | [] => none
  | b :: rest =>
    if b < 128 then some ((b, 1, [b]), rest)
    else
      let k := b - 128
      if k ≤ rest.length then
        some ((bytes_to_int (rest.take k), 1 + k, b :: rest.take k), rest.drop k)
      else none

/-- A `CommandCall` instance after a successful `__init__`: the request
schema already resolved from the catalog, plus debug/host/port metadata.
The socket is modelled separately as explicit state. -/
structure CommandCall (V : Type) where
  request_definition : MessageDefinition V
  debug : Bool
  host : String
  port : Nat

/-- The mutable surroundings of a `CommandCall.send`: the process-wide
`REQUEST_ID` counter, the byte strings handed to `sock.send`, and the strings
emitted to the logging collaborator. -/
structure WireState where
  request_id : Nat
  sent : List Bytes
  logged : List String

/-- `CommandCall.send(*args, **kwargs)`: construct the frame, hand it to the
transport in one blocking `sock.send`, optionally log the wire-trace
rendering, and return the status code `0`.  A construction failure or a
`KeyError` inside `explain_klv` propagates as `none` (the counter advance and
any completed transport write are kept, as in the source). -/
def CommandCall.send {V : Type} (cc : CommandCall V)
    (requests_by_key responses_by_key : String → Option String)
    (args : List V) (kwargs : List (String × V)) (st : WireState) :
    Option Nat × WireState :=
  match construct_message cc.request_definition args kwargs st.request_id with
  | (Except.error _, rid) => (none, { st with request_id := rid })
  | (Except.ok request_bin, rid) =>
    let st1 : WireState :=
      { request_id := rid, sent := st.sent ++ [request_bin], logged := st.logged }
    if cc.debug then
      match explain_klv requests_by_key responses_by_key request_bin with
      | some expl =>
        (some 0, { st1 with logged := st1.logged ++
          ["REQUEST SENT TO " ++ cc.host ++ ":" ++ toString cc.port ++ " : \n" ++ expl] })
      | none => (none, st1)
    else (some 0, st1)

/-- `CommandCall.receive()`: four blocking reads (13-byte header, 3-byte key,
BER length field, 4-byte correlation id) followed by the
`declared_length - 4` payload bytes; resolve the response schema by key and
parse the payload.  The received correlation id is bound to `response_id` and
never inspected (apart from the debug rendering).  The debug branch only logs;
its sole effect on the result is that a `KeyError` from `explain_klv`
propagates. -/
def CommandCall.receive {V : Type} [DecidableEq V] (cc : CommandCall V)
    (responses_get_by_key : Bytes → Option (MessageDefinition V))
    (requests_by_key responses_by_key : String → Option String)
    (stream : Bytes) : Option (List (String × ParsedVal V)) := do
  let (response_header, s1) ← sock_receive 13 stream
  let (response_key, s2) ← sock_receive 3 s1
  let (bp, s3) ← ber_from_socket s2
  let (response_id, s4) ← sock_receive 4 s3
  let (response_payload, _s5) ← sock_receive (bp.1 - 4) s4
  let response_definition ← responses_get_by_key response_key
  if cc.debug then
    let full_message := response_header ++ response_key ++ bp.2.2
      ++ response_id ++ response_payload
    let _ ← explain_klv requests_by_key responses_by_key full_message
    pure (parse_message response_definition response_payload)
  else
    pure (parse_message response_definition response_payload)

/-- The keys an element contributes to the parsed mapping: its name, plus
`<name>_text` when its translation table is truthy. -/
def parse_keys {V : Type} (elem : Element V) : List String :=
  elem.name :: (if elem.text_translate.isEmpty then [] else [elem.name ++ "_text"])

/-- The `<name>` / `<name>_text` entries one element contributes to the
parsed mapping for a given payload body. -/
def parse_entries {V : Type} [DecidableEq V] (elem : Element V) (payload : Bytes) :
    List (String × ParsedVal V) :=
  let value := elem.func_decode ((payload.drop elem.start).take (elem.endPos - elem.start))
  (elem.name, (Sum.inl value : ParsedVal V)) ::
    (if elem.text_translate.isEmpty then []
     else [(elem.name ++ "_text",
       (Sum.inr (dict_get elem.text_translate value "unknown value") : ParsedVal V))])

/-- A wellformed BER length field, per spec §4.1: one byte below 128 (short
form), or `0x80 + k` followed by exactly `k` big-endian bytes (long form);
`n` is the encoded length and `k` the total byte count consumed after the
first byte is accounted for (`consumed = k`). -/
def wellformed_ber (berBytes : Bytes) (n k : Nat) : Prop :=
  ∃ b kbytes, berBytes = b :: kbytes ∧
    ((b < 128 ∧ kbytes = [] ∧ n = b ∧ k = 1) ∨
     (128 ≤ b ∧ kbytes.length = b - 128 ∧ n = bytes_to_int kbytes ∧ k = 1 + (b - 128)))

/-- The number of fields whose value must come from the positional
arguments: those whose name is not bound in `kwargs`. -/
def unnamed_fields {V : Type} (elements : List (Element V))
    (kwargs : List (String × V)) : Nat :=
  (elements.filter (fun e => (kwargs_get kwargs e.name).isNone)).length

/-- The counter value reached after `k` calls to `get_new_request_id`,
starting from the process-start value `REQUEST_ID = 0`. -/
def request_id_state : Nat → Nat
  | 0 => 0
  | k + 1 => (get_new_request_id (request_id_state k)).2

/-- The value returned by call number `k + 1` (0-indexed `k`) of
`get_new_request_id`, starting from the process-start counter 0. -/
def request_id_value (k : Nat) : Nat :=
  (get_new_request_id (request_id_state k)).1

/-- A sample `int32`-style field: 4-byte big-endian value at bytes 0-4. -/
def exElemA : Element Nat :=
  { name := "a", start := 0, endPos := 4,
    func_encode := fun v => int_to_bytes v 4,
    func_decode := fun bs => bytes_to_int bs,
    text_translate := [] }

/-- A sample `int8`-style field at byte 4, carrying a translation table. -/
def exElemB : Element Nat :=
  { name := "b", start := 4, endPos := 5,
    func_encode := fun v => [v % 256],
    func_decode := fun bs => bytes_to_int bs,
    text_translate := [(7, "seven")] }

/-- A sample two-field request schema with key `AA BB CC` (spec §8's
end-to-end scenario). -/
def exMsg : MessageDefinition Nat :=
  { name := "Test", key := [0xAA, 0xBB, 0xCC], elements := [exElemA, exElemB] }

/-- A sample request catalog knowing only `exMsg` (keyed by hex string, as
`explain_klv` looks keys up). -/
def exRequestCatalog : String → Option String :=
  fun key_hex => if key_hex = "aabbcc" then some "Test" else none

/-- A sample empty response catalog for `explain_klv`. -/
def exEmptyCatalog : String → Option String := fun _ => none

/-- A sample response catalog for `CommandCall.receive`, keyed by the raw
3-byte key. -/
def exResponseCatalog : Bytes → Option (MessageDefinition Nat) :=
  fun key => if key = [0xAA, 0xBB, 0xCC] then some exMsg else none

/-- A sample resolved `CommandCall` with debug disabled. -/
def exCall : CommandCall Nat :=
  { request_definition := exMsg, debug := false, host := "localhost", port := 11730 }

/-- A sample resolved `CommandCall` with debug enabled. -/
def exCallDebug : CommandCall Nat :=
  { request_definition := exMsg, debug := true, host := "localhost", port := 11730 }

/-- A 41-byte frame: 13-byte header, 3-byte key `AA BB CC`, one-byte BER
length `0x18`, 4-byte id, and a 20-byte payload (whose hex rendering is
exactly 40 characters). -/
def exFrame41 : Bytes :=
  HEADER ++ [0xAA, 0xBB, 0xCC] ++ [0x18] ++ [0x00, 0x00, 0x00, 0x01] ++
    [1, 2, 3, 4, 5, 6, 7, 8, 9, 10, 11, 12, 13, 14, 15, 16, 17, 18, 19, 20]

/-- A 21-byte frame: header, key, one-byte BER length `0x04`, 4-byte id,
empty payload. -/
def exFrame21 : Bytes :=
  HEADER ++ [0xAA, 0xBB, 0xCC] ++ [0x04] ++ [0x00, 0x00, 0x00, 0x01]

/-! ## Basic lemmas -/

theorem int_to_bytes_length (n size : Nat) : (int_to_bytes n size).length = size := by
  simp [int_to_bytes]

theorem request_id_state_eq (k : Nat) : request_id_state k = k % 60000 := by
  induction k with
  | zero => rfl
  | succ k ih =>
    simp only [request_id_state, get_new_request_id, ih]
    omega

/-! ## C5: the correlation-id generator -/

/-- C5: starting from the initial counter value 0, the `k+1`-st call to
`get_new_request_id` returns `(k+1) % 60000` — i.e. the successive calls
return `1, 2, ..., 59999, 0` and then repeat that 60000-value cycle; every
returned value lies in `[0, 59999]`; and each call increments the counter by
1 modulo 60000. -/
theorem get_new_request_id_cycle (k : Nat) :
    request_id_value k = (k + 1) % 60000 ∧
    request_id_value k < 60000 ∧
    request_id_value (k + 60000) = request_id_value k ∧
    request_id_state (k + 1) = (request_id_state k + 1) % 60000 ∧
    (∀ s : Nat, get_new_request_id s = ((s + 1) % 60000, (s + 1) % 60000)) := by
  have hv : ∀ m : Nat, request_id_value m = (m + 1) % 60000 := by
    intro m
    simp only [request_id_value, request_id_state_eq, get_new_request_id]
    omega
  refine ⟨hv k, ?_, ?_, ?_, fun s => rfl⟩
  · rw [hv k]; omega
  · rw [hv k, hv (k + 60000)]; omega
  · rw [request_id_state_eq, request_id_state_eq]; omega

/-! ## C9: a failed construction still consumes a request id -/

/-- C9: `construct_message` generates the correlation id before resolving any
argument, so when construction fails (positional arguments exhausted) the
process-wide counter has nevertheless already been advanced by one modulo
60000 and is not rolled back. -/
theorem construct_message_advances_counter_on_failure {V : Type}
    (message : MessageDefinition V) (args : List V) (kwargs : List (String × V))
    (s : Nat) (e : DoremiError)
    (h : (construct_message message args kwargs s).1 = Except.error e) :
    (construct_message message args kwargs s).2 = (s + 1) % 60000 := by
  unfold construct_message
  cases construct_loop args kwargs message.elements 0 <;>
    simp [get_new_request_id_bytes, get_new_request_id]

/-- Witness for C9 at a concrete failing call: two fields, no arguments at
all, starting counter 5. -/
theorem construct_message_advances_counter_on_failure_witness :
    (construct_message exMsg ([] : List Nat) [] 5).1 =
        Except.error DoremiError.MissingArgument ∧
    (construct_message exMsg ([] : List Nat) [] 5).2 = (5 + 1) % 60000 :=
  ⟨rfl, construct_message_advances_counter_on_failure exMsg [] [] 5
    DoremiError.MissingArgument rfl⟩

/-! ## Resolution bridge lemmas -/

theorem construct_loop_eq_map_resolve {V : Type} (args : List V)
    (kwargs : List (String × V)) (els : List (Element V)) : ∀ (it : Nat),
    construct_loop args kwargs els it =
      (resolve_loop args kwargs els it).map
        (fun vals => List.zipWith (fun e v => e.func_encode v) els vals) := by
  induction els with
  | nil => intro it; simp [construct_loop, resolve_loop, Except.map]
  | cons element rest ih =>
    intro it
    simp only [construct_loop, resolve_loop]
    cases hkw : kwargs_get kwargs element.name with
    | some arg =>
      rw [ih it]
      cases resolve_loop args kwargs rest it <;> simp [Except.map]
    | none =>
      cases hargs : args.get? it with
      | some arg =>
        rw [ih (it + 1)]
        cases resolve_loop args kwargs rest (it + 1) <;> simp [Except.map]
      | none => simp [Except.map]

theorem resolve_loop_length {V : Type} (args : List V) (kwargs : List (String × V))
    (els : List (Element V)) : ∀ (it : Nat) (vals : List V),
    resolve_loop args kwargs els it = Except.ok vals → vals.length = els.length := by
  induction els with
  | nil =>
    intro it vals h
    simp only [resolve_loop] at h
    cases h
    rfl
  | cons element rest ih =>
    intro it vals h
    simp only [resolve_loop] at h
    cases hkw : kwargs_get kwargs element.name with
    | some arg =>
      rw [hkw] at h
      cases hr : resolve_loop args kwargs rest it with
      | ok tail =>
        rw [hr] at h
        cases h
        simp [ih it tail hr]
      | error e => rw [hr] at h; cases h
    | none =>
      rw [hkw] at h
      cases hargs : args.get? it with
      | some arg =>
        rw [hargs] at h
        cases hr : resolve_loop args kwargs rest (it + 1) with
        | ok tail =>
          rw [hr] at h
          cases h
          simp [ih (it + 1) tail hr]
        | error e => rw [hr] at h; cases h
      | none => rw [hargs] at h; cases h

theorem construct_message_eq_of_resolve {V : Type} (message : MessageDefinition V)
    (args : List V) (kwargs : List (String × V)) (s : Nat) (vals : List V)
    (hres : resolve_loop args kwargs message.elements 0 = Except.ok vals) :
    construct_message message args kwargs s =
      (Except.ok (HEADER ++ message.key
          ++ encode_ber (int_to_bytes ((s + 1) % 60000) 4 ++
              (List.zipWith (fun e v => e.func_encode v) message.elements vals).flatten).length
          ++ (int_to_bytes ((s + 1) % 60000) 4 ++
              (List.zipWith (fun e v => e.func_encode v) message.elements vals).flatten)),
        (s + 1) % 60000) := by
  have hc := construct_loop_eq_map_resolve args kwargs message.elements 0
  rw [hres] at hc
  unfold construct_message
  rw [hc]
  simp [Except.map, get_new_request_id_bytes, get_new_request_id]

/-! ## C1: the frame layout -/

/-- C1: for every schema and every successfully resolved argument list,
`construct_message` returns exactly
`Header ++ schema.key ++ BER(len(payload)) ++ payload` where `payload` is the
4-byte big-endian correlation id followed by the field encodings concatenated
in declared schema order without separators, and `Header` is the fixed
13-byte constant `06 0E 2B 34 02 05 01 0A 0E 10 01 01 01`. -/
theorem construct_message_frame_layout {V : Type} (message : MessageDefinition V)
    (args : List V) (kwargs : List (String × V)) (s : Nat) (vals : List V)
    (hres : resolve_loop args kwargs message.elements 0 = Except.ok vals) :
    construct_message message args kwargs s =
      (Except.ok
        ([0x06, 0x0E, 0x2B, 0x34, 0x02, 0x05, 0x01, 0x0A, 0x0E, 0x10, 0x01, 0x01, 0x01]
          ++ message.key
          ++ encode_ber (int_to_bytes ((s + 1) % 60000) 4 ++
              (List.zipWith (fun e v => e.func_encode v) message.elements vals).flatten).length
          ++ (int_to_bytes ((s + 1) % 60000) 4 ++
              (List.zipWith (fun e v => e.func_encode v) message.elements vals).flatten)),
        (s + 1) % 60000) ∧
    (int_to_bytes ((s + 1) % 60000) 4).length = 4 ∧
    (int_to_bytes ((s + 1) % 60000) 4 ++
        (List.zipWith (fun e v => e.func_encode v) message.elements vals).flatten).length =
      4 + (List.zipWith (fun e v => e.func_encode v) message.elements vals).flatten.length := by
  refine ⟨construct_message_eq_of_resolve message args kwargs s vals hres, ?_, ?_⟩
  · exact int_to_bytes_length _ 4
  · simp [int_to_bytes_length]

/-- Witness for C1: the spec §8 end-to-end scenario — key `AA BB CC`, an
`int32` field bound to 42 and an `int8` field bound to 7, starting counter 0,
yields the fully explicit frame. -/
theorem construct_message_frame_layout_witness :
    construct_message exMsg ([42, 7] : List Nat) [] 0 =
      (Except.ok [0x06, 0x0E, 0x2B, 0x34, 0x02, 0x05, 0x01, 0x0A, 0x0E, 0x10,
        0x01, 0x01, 0x01, 0xAA, 0xBB, 0xCC, 9, 0, 0, 0, 1, 0, 0, 0, 42, 7], 1) := by
  have h := (construct_message_frame_layout exMsg [42, 7] [] 0 [42, 7] rfl).1
  exact h.trans (by rfl)

/-! ## C3: argument resolution order and MissingArgument -/

theorem except_map_eq_error {A B E : Type} (f : A → B) (x : Except E A) (e : E) :
    (x.map f = Except.error e) ↔ x = Except.error e := by
  cases x <;> simp [Except.map]

theorem unnamed_fields_cons_named {V : Type} {e : Element V} {l : List (Element V)}
    {kwargs : List (String × V)} {a : V} (h : kwargs_get kwargs e.name = some a) :
    unnamed_fields (e :: l) kwargs = unnamed_fields l kwargs := by
  simp [unnamed_fields, List.filter_cons, h]

theorem unnamed_fields_cons_unnamed {V : Type} {e : Element V} {l : List (Element V)}
    {kwargs : List (String × V)} (h : kwargs_get kwargs e.name = none) :
    unnamed_fields (e :: l) kwargs = 1 + unnamed_fields l kwargs := by
  simp only [unnamed_fields, List.filter_cons, h, Option.isNone_none, if_true]
  simp [Nat.add_comm]

theorem construct_loop_error_iff {V : Type} (args : List V)
    (kwargs : List (String × V)) (els : List (Element V)) : ∀ (it : Nat),
    it ≤ args.length →
    ((construct_loop args kwargs els it = Except.error DoremiError.MissingArgument) ↔
      args.length < it + unnamed_fields els kwargs) := by
  induction els with
  | nil =>
    intro it hle
    simp only [construct_loop, unnamed_fields, List.filter_nil, List.length_nil]
    constructor
    · intro h; exact absurd h (by simp)
    · intro h; exact absurd hle (by omega)
  | cons element rest ih =>
    intro it hle
    simp only [construct_loop]
    cases hkw : kwargs_get kwargs element.name with
    | some arg =>
      rw [unnamed_fields_cons_named hkw, except_map_eq_error, ih it hle]
    | none =>
      rw [unnamed_fields_cons_unnamed hkw]
      cases hargs : args.get? it with
      | some arg =>
        have hlt : it < args.length := by
          rcases List.get?_eq_some.mp hargs with ⟨hl, _⟩
          exact hl
        rw [except_map_eq_error, ih (it + 1) (by omega)]
        omega
      | none =>
        have hge : args.length ≤ it := List.get?_eq_none.mp hargs
        exact iff_of_true rfl (by omega)

theorem resolve_loop_values {V : Type} (args : List V) (kwargs : List (String × V))
    (els : List (Element V)) : ∀ (it : Nat) (vals : List V),
    resolve_loop args kwargs els it = Except.ok vals →
    ∀ (i : Nat) (e : Element V), els.get? i = some e →
      vals.get? i = (match kwargs_get kwargs e.name with
        | some a => some a
        | none => args.get? (it + unnamed_fields (els.take i) kwargs)) := by
  induction els with
  | nil => intro it vals h i e he; simp at he
  | cons element rest ih =>
    intro it vals h i e he
    simp only [resolve_loop] at h
    cases hkw : kwargs_get kwargs element.name with
    | some arg =>
      rw [hkw] at h
      cases hr : resolve_loop args kwargs rest it with
      | error e2 => rw [hr] at h; cases h
      | ok tail =>
        rw [hr] at h
        cases h
        cases i with
        | zero =>
          simp only [List.get?] at he
          cases he
          simp [hkw]
        | succ i =>
          simp only [List.get?] at he ⊢
          rw [ih it tail hr i e he]
          cases kwargs_get kwargs e.name with
          | some a => rfl
          | none => rw [List.take_succ_cons, unnamed_fields_cons_named hkw]
    | none =>
      rw [hkw] at h
      cases hargs : args.get? it with
      | none => rw [hargs] at h; cases h
      | some arg =>
        rw [hargs] at h
        cases hr : resolve_loop args kwargs rest (it + 1) with
        | error e2 => rw [hr] at h; cases h
        | ok tail =>
          rw [hr] at h
          cases h
          cases i with
          | zero =>
            simp only [List.get?] at he
            cases he
            simp only [List.get?, List.take_zero, hkw]
            have h0 : unnamed_fields ([] : List (Element V)) kwargs = 0 := rfl
            rw [h0, Nat.add_zero]
            exact hargs.symm
          | succ i =>
            simp only [List.get?] at he ⊢
            rw [ih (it + 1) tail hr i e he]
            cases kwargs_get kwargs e.name with
            | some a => rfl
            | none =>
              rw [List.take_succ_cons, unnamed_fields_cons_unnamed hkw, Nat.add_assoc]

/-- C3: in `construct_message`, each field (in schema order) takes the named
argument of its name when one is supplied and otherwise the next unused
positional argument in order (the positional index being the number of
preceding fields lacking a named argument); the call fails with
`MissingArgument` exactly when the positional arguments are exhausted before
all fields lacking a named argument are resolved, i.e. exactly when fewer
positional arguments are supplied than there are fields without a named
argument. -/
theorem construct_message_resolution {V : Type} (message : MessageDefinition V)
    (args : List V) (kwargs : List (String × V)) (s : Nat) :
    ((construct_message message args kwargs s).1 =
        Except.error DoremiError.MissingArgument ↔
      args.length < unnamed_fields message.elements kwargs) ∧
    (∀ vals, resolve_loop args kwargs message.elements 0 = Except.ok vals →
      ∀ (i : Nat) (e : Element V), message.elements.get? i = some e →
        vals.get? i = (match kwargs_get kwargs e.name with
          | some a => some a
          | none => args.get? (unnamed_fields (message.elements.take i) kwargs))) := by
  constructor
  · have hstep : (construct_message message args kwargs s).1 =
          Except.error DoremiError.MissingArgument ↔
        construct_loop args kwargs message.elements 0 =
          Except.error DoremiError.MissingArgument := by
      unfold construct_message
      cases construct_loop args kwargs message.elements 0 with
      | error e => cases e; simp
      | ok pvs => simp
    rw [hstep, construct_loop_error_iff args kwargs message.elements 0 (by omega)]
    omega
  · intro vals hres i e he
    have h := resolve_loop_values args kwargs message.elements 0 vals hres i e he
    simpa using h

/-- Witness for C3 at concrete inputs: with one positional argument for the
two-field schema the call fails with `MissingArgument`; with both supplied
positionally, field 0 resolves to the first positional argument. -/
theorem construct_message_resolution_witness :
    (construct_message exMsg ([42] : List Nat) [] 0).1 =
        Except.error DoremiError.MissingArgument ∧
    ([42, 7] : List Nat).get? 0 = some 42 := by
  constructor
  · exact (construct_message_resolution exMsg [42] [] 0).1.mpr (by decide)
  · have h := (construct_message_resolution exMsg [42, 7] [] 0).2 [42, 7] rfl 0
      exElemA rfl
    simpa using h

/-! ## C10: surplus arguments are ignored -/

theorem kwargs_get_nil_of_irrelevant {V : Type} (extra : List (String × V))
    (name : String) (h : ∀ p ∈ extra, p.1 ≠ name) :
    kwargs_get extra name = none := by
  induction extra with
  | nil => rfl
  | cons p rest ih =>
    have hp : p.1 ≠ name := h p (by simp)
    have hrest := ih (fun q hq => h q (List.mem_cons_of_mem _ hq))
    simp only [kwargs_get, List.find?]
    rw [decide_eq_false hp]
    exact hrest

theorem kwargs_get_append_irrelevant {V : Type} (kwargs extra : List (String × V))
    (name : String) (h : ∀ p ∈ extra, p.1 ≠ name) :
    kwargs_get (kwargs ++ extra) name = kwargs_get kwargs name := by
  induction kwargs with
  | nil =>
    simp only [List.nil_append]
    exact kwargs_get_nil_of_irrelevant extra name h
  | cons q rest ih =>
    by_cases hq : q.1 = name
    · simp only [kwargs_get, List.cons_append, List.find?]
      rw [decide_eq_true hq]
    · simp only [kwargs_get, List.cons_append, List.find?]
      rw [decide_eq_false hq]
      exact ih

theorem construct_loop_kwargs_congr {V : Type} (args : List V)
    (kwargs kwargs' : List (String × V)) (els : List (Element V)) : ∀ (it : Nat),
    (∀ e ∈ els, kwargs_get kwargs' e.name = kwargs_get kwargs e.name) →
    construct_loop args kwargs' els it = construct_loop args kwargs els it := by
  induction els with
  | nil => intro it _; rfl
  | cons element rest ih =>
    intro it h
    have hh := h element (by simp)
    have hr := fun e he => h e (List.mem_cons_of_mem _ he)
    simp only [construct_loop, hh]
    cases kwargs_get kwargs element.name with
    | some arg => rw [ih it hr]
    | none =>
      cases args.get? it with
      | some arg => rw [ih (it + 1) hr]
      | none => rfl

theorem construct_loop_args_append {V : Type} (args extra : List V)
    (kwargs : List (String × V)) (els : List (Element V)) :
    ∀ (it : Nat) (pvs : List Bytes),
    construct_loop args kwargs els it = Except.ok pvs →
    construct_loop (args ++ extra) kwargs els it = Except.ok pvs := by
  induction els with
  | nil => intro it pvs h; simpa [construct_loop] using h
  | cons element rest ih =>
    intro it pvs h
    simp only [construct_loop] at h ⊢
    cases hkw : kwargs_get kwargs element.name with
    | some arg =>
      rw [hkw] at h
      cases hc : construct_loop args kwargs rest it with
      | error e => rw [hc] at h; cases h
      | ok tail =>
        rw [hc] at h
        rw [ih it tail hc]
        exact h
    | none =>
      rw [hkw] at h
      cases hargs : args.get? it with
      | none => rw [hargs] at h; cases h
      | some arg =>
        rw [hargs] at h
        have hlt : it < args.length := by
          rcases List.get?_eq_some.mp hargs with ⟨hl, _⟩
          exact hl
        have happ : (args ++ extra).get? it = some arg := by
          rw [List.get?_append hlt]; exact hargs
        rw [happ]
        cases hc : construct_loop args kwargs rest (it + 1) with
        | error e => rw [hc] at h; cases h
        | ok tail =>
          rw [hc] at h
          rw [ih (it + 1) tail hc]
          exact h

/-- C10: `construct_message` never fails on surplus arguments — named
arguments whose names match no field and positional arguments beyond those
consumed by the fields lacking a named argument leave the result (frame and
counter) unchanged; and the output is determined solely by the values bound
to the schema's fields: any argument lists resolving to the same values
produce the same result. -/
theorem construct_message_ignores_surplus {V : Type} (message : MessageDefinition V)
    (args extra : List V) (kwargs extraKw : List (String × V)) (s : Nat)
    (frame : Bytes)
    (hok : (construct_message message args kwargs s).1 = Except.ok frame)
    (hirr : ∀ p ∈ extraKw, ∀ e ∈ message.elements, p.1 ≠ e.name) :
    construct_message message (args ++ extra) (kwargs ++ extraKw) s =
      construct_message message args kwargs s ∧
    (∀ (args2 : List V) (kwargs2 : List (String × V)) (vals : List V),
      resolve_loop args kwargs message.elements 0 = Except.ok vals →
      resolve_loop args2 kwargs2 message.elements 0 = Except.ok vals →
      (construct_message message args2 kwargs2 s).1 =
        (construct_message message args kwargs s).1) := by
  constructor
  · have hpvs : ∃ pvs, construct_loop args kwargs message.elements 0 = Except.ok pvs := by
      revert hok
      unfold construct_message
      cases hc : construct_loop args kwargs message.elements 0 with
      | error e => intro hok; cases hok
      | ok pvs => intro _; exact ⟨pvs, rfl⟩
    rcases hpvs with ⟨pvs, hc⟩
    have hcong : construct_loop args (kwargs ++ extraKw) message.elements 0 =
        construct_loop args kwargs message.elements 0 := by
      refine construct_loop_kwargs_congr args kwargs (kwargs ++ extraKw)
        message.elements 0 (fun e he => ?_)
      exact kwargs_get_append_irrelevant kwargs extraKw e.name
        (fun p hp => hirr p hp e he)
    have hfull : construct_loop (args ++ extra) (kwargs ++ extraKw)
        message.elements 0 = Except.ok pvs := by
      refine construct_loop_args_append args extra (kwargs ++ extraKw)
        message.elements 0 pvs ?_
      rw [hcong]; exact hc
    unfold construct_message
    rw [hfull, hc]
  · intro args2 kwargs2 vals hres1 hres2
    have h1 := construct_message_eq_of_resolve message args kwargs s vals hres1
    have h2 := construct_message_eq_of_resolve message args2 kwargs2 s vals hres2
    rw [h1, h2]

/-- Witness for C10: a surplus positional argument `99` and a surplus named
argument `zz` leave the spec §8 frame unchanged. -/
theorem construct_message_ignores_surplus_witness :
    construct_message exMsg ([42, 7, 99] : List Nat) [("zz", 5)] 0 =
      construct_message exMsg ([42, 7] : List Nat) [] 0 ∧
    (construct_message exMsg ([42, 7] : List Nat) [] 0).1 =
      Except.ok [0x06, 0x0E, 0x2B, 0x34, 0x02, 0x05, 0x01, 0x0A, 0x0E, 0x10,
        0x01, 0x01, 0x01, 0xAA, 0xBB, 0xCC, 9, 0, 0, 0, 1, 0, 0, 0, 42, 7] := by
  constructor
  · exact (construct_message_ignores_surplus exMsg [42, 7] [99] [] [("zz", 5)] 0
      [0x06, 0x0E, 0x2B, 0x34, 0x02, 0x05, 0x01, 0x0A, 0x0E, 0x10,
        0x01, 0x01, 0x01, 0xAA, 0xBB, 0xCC, 9, 0, 0, 0, 1, 0, 0, 0, 42, 7]
      rfl (by decide)).1
  · rfl

/-! ## C4: schema-driven parsing -/

theorem od_insert_of_not_mem {A : Type} (m : List (String × A)) (k : String) (v : A)
    (h : ∀ p ∈ m, p.1 ≠ k) : od_insert m k v = m ++ [(k, v)] := by
  unfold od_insert
  have hc : ¬ (m.any (fun p => decide (p.1 = k)) = true) := by
    simp only [List.any_eq_true, decide_eq_true_eq]
    rintro ⟨p, hp, hpk⟩
    exact h p hp hpk
  rw [if_neg hc]

theorem parse_entries_keys {V : Type} [DecidableEq V] (elem : Element V)
    (payload : Bytes) : (parse_entries elem payload).map Prod.fst = parse_keys elem := by
  unfold parse_entries parse_keys
  cases elem.text_translate.isEmpty <;> simp

theorem parse_go_eq_append {V : Type} [DecidableEq V] (payload : Bytes) :
    ∀ (els : List (Element V)) (acc : List (String × ParsedVal V)),
    (∀ p ∈ acc, ∀ e ∈ els, p.1 ∉ parse_keys e) →
    ((els.map parse_keys).flatten).Nodup →
    parse_go payload els acc = acc ++ (els.map (fun e => parse_entries e payload)).flatten := by
  intro els
  induction els with
  | nil => intro acc _ _; simp [parse_go]
  | cons elem rest ih =>
    intro acc hdisj hnd
    rw [List.map_cons, List.flatten_cons] at hnd
    have hpk : (parse_keys elem).Nodup := (List.nodup_append.mp hnd).1
    have hnd' : ((rest.map parse_keys).flatten).Nodup := (List.nodup_append.mp hnd).2.1
    have hdis := (List.nodup_append.mp hnd).2.2
    have hdisjkeys : ∀ k ∈ parse_keys elem, ∀ e ∈ rest, k ∉ parse_keys e := by
      intro k hk e he hke
      exact hdis hk (List.mem_flatten.mpr ⟨parse_keys e, List.mem_map_of_mem _ he, hke⟩)
    have hname_mem : elem.name ∈ parse_keys elem := by
      unfold parse_keys; exact List.mem_cons_self _ _
    have hname_acc : ∀ p ∈ acc, p.1 ≠ elem.name := by
      intro p hp hcontra
      exact hdisj p hp elem (List.mem_cons_self _ _) (hcontra ▸ hname_mem)
    simp only [parse_go]
    rw [od_insert_of_not_mem acc elem.name _ hname_acc]
    cases hemp : elem.text_translate.isEmpty with
    | true =>
      rw [if_pos rfl]
      have hstep := ih (acc ++ [(elem.name, Sum.inl (elem.func_decode
          ((payload.drop elem.start).take (elem.endPos - elem.start))))])
        (by
          intro p hp e he
          rcases List.mem_append.mp hp with hold | hnew
          · exact hdisj p hold e (List.mem_cons_of_mem _ he)
          · have : p.1 = elem.name := by
              rcases List.mem_singleton.mp hnew with rfl
              rfl
            rw [this]
            exact hdisjkeys elem.name hname_mem e he)
        hnd'
      rw [hstep, List.map_cons, List.flatten_cons]
      have hE : parse_entries elem payload =
          [(elem.name, Sum.inl (elem.func_decode
            ((payload.drop elem.start).take (elem.endPos - elem.start))))] := by
        simp [parse_entries, hemp]
      rw [hE]
      simp [List.append_assoc]
    | false =>
      have hfalse : ¬ (elem.text_translate.isEmpty = true) := by simp [hemp]
      rw [if_neg Bool.false_ne_true]
      have htext_mem : elem.name ++ "_text" ∈ parse_keys elem := by
        simp [parse_keys, hemp]
      have hne : elem.name ≠ elem.name ++ "_text" := by
        have h2 := hpk
        unfold parse_keys at h2
        rw [if_neg hfalse] at h2
        intro hcontra
        exact (List.nodup_cons.mp h2).1 (hcontra ▸ List.mem_singleton.mpr rfl)
      have hins2 : od_insert (acc ++ [(elem.name, Sum.inl (elem.func_decode
            ((payload.drop elem.start).take (elem.endPos - elem.start))))])
          (elem.name ++ "_text")
          (Sum.inr (dict_get elem.text_translate (elem.func_decode
            ((payload.drop elem.start).take (elem.endPos - elem.start)))
            "unknown value")) =
          acc ++ [(elem.name, Sum.inl (elem.func_decode
            ((payload.drop elem.start).take (elem.endPos - elem.start)))),
            (elem.name ++ "_text",
             Sum.inr (dict_get elem.text_translate (elem.func_decode
               ((payload.drop elem.start).take (elem.endPos - elem.start)))
               "unknown value"))] := by
        rw [od_insert_of_not_mem]
        · simp
        · intro p hp
          rcases List.mem_append.mp hp with hold | hnew
          · intro hcontra
            exact hdisj p hold elem (List.mem_cons_self _ _) (hcontra ▸ htext_mem)
          · rcases List.mem_singleton.mp hnew with rfl
            exact hne
      rw [hins2]
      have hstep := ih (acc ++ [(elem.name, Sum.inl (elem.func_decode
          ((payload.drop elem.start).take (elem.endPos - elem.start)))),
          (elem.name ++ "_text",
           Sum.inr (dict_get elem.text_translate (elem.func_decode
             ((payload.drop elem.start).take (elem.endPos - elem.start)))
             "unknown value"))])
        (by
          intro p hp e he
          rcases List.mem_append.mp hp with hold | hnew
          · exact hdisj p hold e (List.mem_cons_of_mem _ he)
          · rcases List.mem_cons.mp hnew with rfl | hnew2
            · exact hdisjkeys elem.name hname_mem e he
            · rcases List.mem_singleton.mp hnew2 with rfl
              exact hdisjkeys (elem.name ++ "_text") htext_mem e he)
        hnd'
      rw [hstep, List.map_cons, List.flatten_cons]
      have hE : parse_entries elem payload =
          [(elem.name, Sum.inl (elem.func_decode
            ((payload.drop elem.start).take (elem.endPos - elem.start)))),
           (elem.name ++ "_text",
            Sum.inr (dict_get elem.text_translate (elem.func_decode
              ((payload.drop elem.start).take (elem.endPos - elem.start)))
              "unknown value"))] := by
        simp [parse_entries, hemp]
      rw [hE]
      simp [List.append_assoc]

theorem parse_message_eq_flatten {V : Type} [DecidableEq V]
    (message : MessageDefinition V) (payload : Bytes)
    (hnd : ((message.elements.map parse_keys).flatten).Nodup) :
    parse_message message payload =
      (message.elements.map (fun e => parse_entries e payload)).flatten := by
  unfold parse_message
  exact parse_go_eq_append payload message.elements [] (by simp) hnd

/-- C4: for every schema (with pairwise-distinct produced keys) and every
payload, `parse_message` processes the field descriptors in schema order,
binds each field name to the decode of the slice `payload[start:end]`, and
exactly for fields with a truthy text-translation table additionally binds
`<name>_text` to the table's entry for the decoded value, defaulting to the
literal string `"unknown value"`; the returned mapping lists the bindings in
that processing order. -/
theorem parse_message_spec {V : Type} [DecidableEq V]
    (message : MessageDefinition V) (payload : Bytes)
    (hnd : ((message.elements.map parse_keys).flatten).Nodup) :
    parse_message message payload =
      (message.elements.map (fun elem =>
        (elem.name, (Sum.inl (elem.func_decode
            ((payload.drop elem.start).take (elem.endPos - elem.start))) : ParsedVal V)) ::
          (if elem.text_translate.isEmpty then []
           else [(elem.name ++ "_text",
             (Sum.inr (dict_get elem.text_translate
               (elem.func_decode
                 ((payload.drop elem.start).take (elem.endPos - elem.start)))
               "unknown value") : ParsedVal V))]))).flatten := by
  rw [parse_message_eq_flatten message payload hnd]
  rfl

/-- Witness for C4 at a concrete schema and payload: the two-field schema on
the spec §8 payload body, with the translated small field. -/
theorem parse_message_spec_witness :
    parse_message exMsg [0, 0, 0, 42, 7] =
      [("a", Sum.inl 42), ("b", Sum.inl 7), ("b_text", Sum.inr "seven")] := by
  have h := parse_message_spec exMsg [0, 0, 0, 42, 7] (by decide)
  exact h.trans (by rfl)

/-! ## C2: frame round-trip -/

theorem flatten_drop_prefix_sum (l : List Bytes) : ∀ (i : Nat),
    (l.flatten).drop (((l.take i).map List.length).sum) = (l.drop i).flatten := by
  induction l with
  | nil => intro i; simp
  | cons b rest ih =>
    intro i
    cases i with
    | zero => simp
    | succ i =>
      simp only [List.take_succ_cons, List.map_cons, List.sum_cons, List.flatten_cons,
        List.drop_succ_cons]
      rw [← ih i, List.drop_append]

theorem flatten_slice (l : List Bytes) (i : Nat) (hi : i < l.length) :
    ((l.flatten).drop (((l.take i).map List.length).sum)).take l[i].length = l[i] := by
  rw [flatten_drop_prefix_sum l i, List.drop_eq_getElem_cons hi, List.flatten_cons,
    List.take_left]

theorem map_eq_zipWith_of_get {A B C : Type} (f : A → C) (g : A → B → C) :
    ∀ (l : List A) (m : List B), m.length = l.length →
    (∀ (i : Nat) (hi : i < l.length) (hm : i < m.length), f l[i] = g l[i] m[i]) →
    l.map f = List.zipWith g l m := by
  intro l
  induction l with
  | nil => intro m _ _; simp
  | cons a l ih =>
    intro m hlen hpt
    cases m with
    | nil => simp at hlen
    | cons b m =>
      simp only [List.map_cons, List.zipWith_cons_cons]
      have hhead := hpt 0 (by simp) (by simp)
      simp only [List.getElem_cons_zero] at hhead
      rw [hhead, ih m (by simpa using hlen) (fun i hi hm => by
        have hstep := hpt (i + 1) (by simpa using hi) (by simpa using hm)
        simpa only [List.getElem_cons_succ] using hstep)]

/-- C2: for every schema whose field encode/decode functions are mutually
inverse on the resolved values and whose `start`/`end` byte ranges agree with
the positions of the field encodings inside the payload body (and whose
produced keys are pairwise distinct), parsing the payload body of a frame
built by `construct_message` reproduces exactly the resolved argument values,
in field order, with a `<name>_text` entry present for a field exactly when
that field carries a (truthy) translation table; and the frame built by
`construct_message` indeed carries that payload body after the correlation
id. -/
theorem construct_parse_roundtrip {V : Type} [DecidableEq V]
    (message : MessageDefinition V) (args : List V) (kwargs : List (String × V))
    (vals : List V)
    (hres : resolve_loop args kwargs message.elements 0 = Except.ok vals)
    (hinv : ∀ p ∈ List.zip message.elements vals,
      p.1.func_decode (p.1.func_encode p.2) = p.2)
    (hrange : ∀ (i : Nat) (hi : i < (List.zip message.elements vals).length),
      ((List.zip message.elements vals)[i]).1.start =
        (((List.zipWith (fun e v => e.func_encode v) message.elements vals).take i).map
          List.length).sum ∧
      ((List.zip message.elements vals)[i]).1.endPos =
        ((List.zip message.elements vals)[i]).1.start +
          (((List.zip message.elements vals)[i]).1.func_encode
            ((List.zip message.elements vals)[i]).2).length)
    (hnd : ((message.elements.map parse_keys).flatten).Nodup) :
    parse_message message
        (List.zipWith (fun e v => e.func_encode v) message.elements vals).flatten =
      (List.zipWith (fun elem v =>
        (elem.name, (Sum.inl v : ParsedVal V)) ::
          (if elem.text_translate.isEmpty then []
           else [(elem.name ++ "_text",
             (Sum.inr (dict_get elem.text_translate v "unknown value") : ParsedVal V))]))
        message.elements vals).flatten ∧
    (∀ s : Nat, construct_message message args kwargs s =
      (Except.ok (HEADER ++ message.key
          ++ encode_ber (int_to_bytes ((s + 1) % 60000) 4 ++
              (List.zipWith (fun e v => e.func_encode v) message.elements vals).flatten).length
          ++ (int_to_bytes ((s + 1) % 60000) 4 ++
              (List.zipWith (fun e v => e.func_encode v) message.elements vals).flatten)),
        (s + 1) % 60000)) := by
  have hlen : vals.length = message.elements.length :=
    resolve_loop_length args kwargs message.elements 0 vals hres
  refine ⟨?_, fun s => construct_message_eq_of_resolve message args kwargs s vals hres⟩
  rw [parse_message_eq_flatten message _ hnd]
  apply congrArg List.flatten
  apply map_eq_zipWith_of_get _ _ _ _ hlen
  intro i hi hm
  have hzi : i < (List.zip message.elements vals).length := by
    rw [List.length_zip]
    omega
  obtain ⟨hstart, hend⟩ := hrange i hzi
  have hzg : (List.zip message.elements vals)[i] = (message.elements[i], vals[i]) :=
    List.getElem_zip
  rw [hzg] at hstart hend
  have hzl : i < (List.zipWith (fun e v => e.func_encode v)
      message.elements vals).length := by
    rw [List.length_zipWith]
    omega
  have hencs : (List.zipWith (fun e v => e.func_encode v) message.elements vals)[i] =
      (message.elements[i]).func_encode vals[i] := List.getElem_zipWith
  have hchunk : (((List.zipWith (fun e v => e.func_encode v)
        message.elements vals).flatten).drop (message.elements[i]).start).take
        ((message.elements[i]).endPos - (message.elements[i]).start) =
      (message.elements[i]).func_encode vals[i] := by
    rw [hend, Nat.add_sub_cancel_left, hstart, ← hencs, flatten_slice _ i hzl, hencs]
  have hmem : (message.elements[i], vals[i]) ∈ List.zip message.elements vals := by
    rw [← hzg]
    exact List.getElem_mem hzi
  have hdec : (message.elements[i]).func_decode
      ((message.elements[i]).func_encode vals[i]) = vals[i] := hinv _ hmem
  simp only [parse_entries]
  rw [hchunk, hdec]

/-- Witness for C2: the spec §8 schema round-trips the values 42 and 7
through its own payload body, with the `b_text` translation present. -/
theorem construct_parse_roundtrip_witness :
    parse_message exMsg
        ((List.zipWith (fun e v => e.func_encode v) exMsg.elements [42, 7]).flatten) =
      [("a", Sum.inl 42), ("b", Sum.inl 7), ("b_text", Sum.inr "seven")] := by
  have h := (construct_parse_roundtrip exMsg [42, 7] [] [42, 7] rfl
    (by decide) (by decide) (by decide)).1
  exact h.trans (by rfl)

/-! ## C7: explain_klv payload-hex truncation -/

theorem hex_digit_ne_dot : ∀ n : Nat, n < 16 → hex_digit n ≠ Char.ofNat 46 := by
  decide

theorem string_data_append (s t : String) : (s ++ t).data = s.data ++ t.data := rfl

theorem bytes_to_hex_no_dot (bs : Bytes) : Char.ofNat 46 ∉ (bytes_to_hex bs).data := by
  induction bs with
  | nil => simp [bytes_to_hex]
  | cons b rest ih =>
    simp only [bytes_to_hex, string_data_append]
    intro hmem
    rcases List.mem_append.mp hmem with h1 | h2
    · have h1' : Char.ofNat 46 ∈ [hex_digit (b / 16 % 16), hex_digit (b % 16)] := h1
      rcases List.mem_cons.mp h1' with he | h1''
      · exact hex_digit_ne_dot _ (Nat.mod_lt _ (by omega)) he.symm
      · have he := List.mem_singleton.mp h1''
        exact hex_digit_ne_dot _ (Nat.mod_lt _ (by omega)) he.symm
    · exact ih h2

theorem dots_data : ("..." : String).data = [Char.ofNat 46, Char.ofNat 46, Char.ofNat 46] := by
  decide

theorem ne_append_dots (s : String) (h : Char.ofNat 46 ∉ s.data) :
    ∀ t : String, s ≠ t ++ "..." := by
  intro t hcontra
  apply h
  rw [hcontra, string_data_append, dots_data]
  exact List.mem_append.mpr (Or.inr (List.mem_cons_self _ _))

theorem bytes_to_hex_length (bs : Bytes) : (bytes_to_hex bs).length = 2 * bs.length := by
  induction bs with
  | nil => rfl
  | cons b rest ih =>
    have happ : (byte_to_hex b ++ bytes_to_hex rest).length =
        (byte_to_hex b).length + (bytes_to_hex rest).length := by
      show ((byte_to_hex b ++ bytes_to_hex rest).data).length = _
      rw [string_data_append, List.length_append]
      rfl
    simp only [bytes_to_hex]
    rw [happ, ih]
    have h2 : (byte_to_hex b).length = 2 := rfl
    rw [h2]
    simp [List.length_cons]
    omega

/-- C7 counterexample: `exFrame41` is a 41-byte frame whose payload-hex
rendering is exactly 40 characters — not longer than 40 — yet the `Data`
segment produced for it ends in `...` (the code tests the whole frame's byte
length, `len(data) > 40`, not the payload-hex character length); `explain_klv`
succeeds on this frame with a one-byte BER field. -/
theorem explain_klv_truncation_counterexample :
    (bytes_to_hex (exFrame41.drop 21)).length = 40 ∧
    ¬ 40 < (bytes_to_hex (exFrame41.drop 21)).length ∧
    klv_short_hex exFrame41 1 = bytes_to_hex (exFrame41.drop 21) ++ "..." ∧
    decode_ber (exFrame41.drop 16) = some (24, 1) ∧
    (explain_klv exRequestCatalog exEmptyCatalog exFrame41).isSome = true :=
  ⟨by decide, by decide, by decide, by decide, by decide⟩

/-- C7 amended: the `Data` segment of `explain_klv` ends in `...` exactly
when the whole frame is longer than 40 BYTES (not when the payload hex
exceeds 40 characters); a frame of at most 40 bytes has its payload hex
rendered unmodified; and the payload-hex length is twice the payload byte
count, so the two conditions genuinely differ on frames of 41 to
`40 + ber_size` bytes. -/
theorem klv_short_hex_spec (data : Bytes) (ber_size : Nat) :
    (40 < data.length →
      klv_short_hex data ber_size =
        str_take (bytes_to_hex (data.drop (16 + ber_size + 4))) 40 ++ "...") ∧
    (data.length ≤ 40 →
      klv_short_hex data ber_size = bytes_to_hex (data.drop (16 + ber_size + 4)) ∧
      ∀ t : String, klv_short_hex data ber_size ≠ t ++ "...") ∧
    (bytes_to_hex (data.drop (16 + ber_size + 4))).length =
      2 * (data.length - (16 + ber_size + 4)) := by
  refine ⟨?_, ?_, ?_⟩
  · intro h
    simp only [klv_short_hex]
    rw [if_pos h]
  · intro h
    have hno : klv_short_hex data ber_size =
        bytes_to_hex (data.drop (16 + ber_size + 4)) := by
      simp only [klv_short_hex]
      rw [if_neg (by omega)]
    refine ⟨hno, ?_⟩
    rw [hno]
    exact ne_append_dots _ (bytes_to_hex_no_dot _)
  · rw [bytes_to_hex_length, List.length_drop]

/-- Witness for the amended C7: the 41-byte frame gets the marker, the
21-byte frame is rendered unmodified. -/
theorem klv_short_hex_spec_witness :
    klv_short_hex exFrame41 1 = str_take (bytes_to_hex (exFrame41.drop 21)) 40 ++ "..." ∧
    klv_short_hex exFrame21 1 = bytes_to_hex (exFrame21.drop 21) :=
  ⟨(klv_short_hex_spec exFrame41 1).1 (by decide),
   ((klv_short_hex_spec exFrame21 1).2.1 (by decide)).1⟩

/-! ## C6: the received correlation id is never checked -/

theorem sock_receive_exact (n : Nat) (l tail : Bytes) (h : l.length = n) :
    sock_receive n (l ++ tail) = some (l, tail) := by
  unfold sock_receive
  rw [if_pos (by rw [List.length_append]; omega)]
  rw [List.take_left' h, List.drop_left' h]

theorem ber_from_socket_wellformed {berBytes : Bytes} {n k : Nat}
    (hwf : wellformed_ber berBytes n k) :
    ∀ tail, ber_from_socket (berBytes ++ tail) = some ((n, k, berBytes), tail) := by
  rcases hwf with ⟨b, kbytes, rfl, hcase⟩
  intro tail
  rcases hcase with ⟨hb, hk0, hn, hkk⟩ | ⟨hb, hlen, hn, hkk⟩
  · subst hk0
    rw [hn, hkk]
    simp [ber_from_socket, hb]
  · have hnb : ¬ b < 128 := by omega
    rw [hn, hkk]
    simp only [List.cons_append, ber_from_socket]
    rw [if_neg hnb, if_pos (by rw [List.length_append]; omega)]
    rw [List.take_left' hlen, List.drop_left' hlen]

theorem decode_ber_wellformed {berBytes : Bytes} {n k : Nat}
    (hwf : wellformed_ber berBytes n k) :
    ∀ tail, decode_ber (berBytes ++ tail) = some (n, k) := by
  rcases hwf with ⟨b, kbytes, rfl, hcase⟩
  intro tail
  rcases hcase with ⟨hb, hk0, hn, hkk⟩ | ⟨hb, hlen, hn, hkk⟩
  · subst hk0
    rw [hn, hkk]
    simp [decode_ber, hb]
  · have hnb : ¬ b < 128 := by omega
    rw [hn, hkk]
    simp only [List.cons_append, decode_ber]
    rw [if_neg hnb, if_neg (by rw [List.length_append]; omega)]
    rw [List.take_left' hlen]

theorem option_bind_const {A B : Type} (o : Option A) (x : B) :
    (o.bind fun _ => some x) = if o.isSome then some x else none := by
  cases o <;> simp

theorem bind_const_eq_of_isSome_eq {A B : Type} (o1 o2 : Option A) (x : B)
    (h : o1.isSome = o2.isSome) :
    (o1.bind fun _ => some x) = (o2.bind fun _ => some x) := by
  cases o1 <;> cases o2 <;> simp_all

theorem explain_klv_isSome_eq (r1 r2 : String → Option String) (data : Bytes)
    (n k : Nat) (hdec : decode_ber (data.drop 16) = some (n, k)) :
    (explain_klv r1 r2 data).isSome =
      (key_name_lookup r1 r2 (bytes_to_hex ((data.drop 13).take 3))).isSome := by
  unfold explain_klv
  cases hk : key_name_lookup r1 r2 (bytes_to_hex ((data.drop 13).take 3)) with
  | none => simp [hk, Option.bind]
  | some key_name => simp [hk, hdec, Option.bind]

/-- C6: `CommandCall.receive` reads the 4-byte correlation-id field and
discards it — for any two deliveries agreeing on the response key, the BER
length field and all following payload bytes but differing in the 4-byte
correlation id, the returned parsed mapping is identical; the received id is
never compared with the id generated for the preceding request. -/
theorem receive_ignores_correlation_id {V : Type} [DecidableEq V]
    (cc : CommandCall V)
    (responses_get_by_key : Bytes → Option (MessageDefinition V))
    (requests_by_key responses_by_key : String → Option String)
    (hdr key berBytes id1 id2 rest : Bytes) (n k : Nat)
    (hhdr : hdr.length = 13) (hkey : key.length = 3)
    (hid1 : id1.length = 4) (hid2 : id2.length = 4)
    (hwf : wellformed_ber berBytes n k) :
    CommandCall.receive cc responses_get_by_key requests_by_key responses_by_key
        (hdr ++ key ++ berBytes ++ id1 ++ rest) =
      CommandCall.receive cc responses_get_by_key requests_by_key responses_by_key
        (hdr ++ key ++ berBytes ++ id2 ++ rest) := by
  have hdrop16 : ∀ X : Bytes, (hdr ++ (key ++ X)).drop 16 = X := by
    intro X
    have h16 : (16 : Nat) = hdr.length + 3 := by omega
    rw [h16, List.drop_append, ← hkey, List.drop_left]
  have htake3 : ∀ X : Bytes, ((hdr ++ (key ++ X)).drop 13).take 3 = key := by
    intro X
    rw [List.drop_left' hhdr, List.take_left' hkey]
  unfold CommandCall.receive
  rw [show hdr ++ key ++ berBytes ++ id1 ++ rest =
      hdr ++ (key ++ (berBytes ++ (id1 ++ rest))) by simp [List.append_assoc]]
  rw [show hdr ++ key ++ berBytes ++ id2 ++ rest =
      hdr ++ (key ++ (berBytes ++ (id2 ++ rest))) by simp [List.append_assoc]]
  rw [sock_receive_exact 13 hdr (key ++ (berBytes ++ (id1 ++ rest))) hhdr,
    sock_receive_exact 13 hdr (key ++ (berBytes ++ (id2 ++ rest))) hhdr]
  simp only [Option.bind_eq_bind, Option.some_bind]
  rw [sock_receive_exact 3 key (berBytes ++ (id1 ++ rest)) hkey,
    sock_receive_exact 3 key (berBytes ++ (id2 ++ rest)) hkey]
  simp only [Option.bind_eq_bind, Option.some_bind]
  rw [ber_from_socket_wellformed hwf (id1 ++ rest),
    ber_from_socket_wellformed hwf (id2 ++ rest)]
  simp only [Option.bind_eq_bind, Option.some_bind]
  rw [sock_receive_exact 4 id1 rest hid1, sock_receive_exact 4 id2 rest hid2]
  simp only [Option.bind_eq_bind, Option.some_bind]
  cases hsr : sock_receive (n - 4) rest with
  | none => rfl
  | some pr =>
    cases pr with
    | mk response_payload s5 =>
      simp only [Option.bind_eq_bind, Option.some_bind]
      cases hrd : responses_get_by_key key with
      | none => rfl
      | some rd =>
        simp only [Option.bind_eq_bind, Option.some_bind]
        cases hdb : cc.debug with
        | false => rfl
        | true =>
          simp only [if_pos rfl]
          rw [show hdr ++ key ++ berBytes ++ id1 ++ response_payload =
              hdr ++ (key ++ (berBytes ++ (id1 ++ response_payload))) by
            simp [List.append_assoc]]
          rw [show hdr ++ key ++ berBytes ++ id2 ++ response_payload =
              hdr ++ (key ++ (berBytes ++ (id2 ++ response_payload))) by
            simp [List.append_assoc]]
          have hdec1 : decode_ber ((hdr ++ (key ++ (berBytes ++
              (id1 ++ response_payload)))).drop 16) = some (n, k) := by
            rw [hdrop16]
            exact decode_ber_wellformed hwf (id1 ++ response_payload)
          have hdec2 : decode_ber ((hdr ++ (key ++ (berBytes ++
              (id2 ++ response_payload)))).drop 16) = some (n, k) := by
            rw [hdrop16]
            exact decode_ber_wellformed hwf (id2 ++ response_payload)
          have hiso1 := explain_klv_isSome_eq requests_by_key responses_by_key
            (hdr ++ (key ++ (berBytes ++ (id1 ++ response_payload)))) n k hdec1
          have hiso2 := explain_klv_isSome_eq requests_by_key responses_by_key
            (hdr ++ (key ++ (berBytes ++ (id2 ++ response_payload)))) n k hdec2
          rw [htake3] at hiso1 hiso2
          have hiso := hiso1.trans hiso2.symm
          simp only [Option.bind_eq_bind, Option.pure_def]
          exact bind_const_eq_of_isSome_eq _ _ _ hiso

/-- Witness for C6: two concrete deliveries differing only in the id bytes
`00 00 00 01` / `00 00 00 02` parse to the same mapping. -/
theorem receive_ignores_correlation_id_witness :
    CommandCall.receive exCall exResponseCatalog exRequestCatalog exEmptyCatalog
        (HEADER ++ [0xAA, 0xBB, 0xCC] ++ [9] ++ [0, 0, 0, 1] ++ [0, 0, 0, 42, 7]) =
      CommandCall.receive exCall exResponseCatalog exRequestCatalog exEmptyCatalog
        (HEADER ++ [0xAA, 0xBB, 0xCC] ++ [9] ++ [0, 0, 0, 2] ++ [0, 0, 0, 42, 7]) ∧
    CommandCall.receive exCall exResponseCatalog exRequestCatalog exEmptyCatalog
        (HEADER ++ [0xAA, 0xBB, 0xCC] ++ [9] ++ [0, 0, 0, 1] ++ [0, 0, 0, 42, 7]) =
      some [("a", Sum.inl 42), ("b", Sum.inl 7), ("b_text", Sum.inr "seven")] := by
  constructor
  · exact receive_ignores_correlation_id exCall exResponseCatalog exRequestCatalog
      exEmptyCatalog HEADER [0xAA, 0xBB, 0xCC] [9] [0, 0, 0, 1] [0, 0, 0, 2]
      [0, 0, 0, 42, 7] 9 1 (by decide) (by decide) (by decide) (by decide)
      ⟨9, [], rfl, Or.inl ⟨by omega, rfl, rfl, rfl⟩⟩
  · rfl

/-! ## C8: CommandCall.send -/

/-- C8: for every argument list the request schema accepts (and whose frame
the explainer can render when debug is on), `CommandCall.send` hands exactly
one byte string — the constructed frame — to the transport and returns the
status code 0; with debug disabled the logging collaborator is untouched, and
with debug enabled it receives exactly one message carrying the wire-trace
rendering of the frame before the call returns. -/
theorem send_transmits_frame_and_returns_zero {V : Type} (cc : CommandCall V)
    (requests_by_key responses_by_key : String → Option String)
    (args : List V) (kwargs : List (String × V)) (st : WireState)
    (frame : Bytes) (rid : Nat)
    (hc : construct_message cc.request_definition args kwargs st.request_id =
      (Except.ok frame, rid))
    (hex : cc.debug = true →
      (explain_klv requests_by_key responses_by_key frame).isSome = true) :
    ∃ st' : WireState,
      CommandCall.send cc requests_by_key responses_by_key args kwargs st =
        (some 0, st') ∧
      st'.sent = st.sent ++ [frame] ∧
      st'.request_id = rid ∧
      (cc.debug = false → st'.logged = st.logged) ∧
      (∀ expl, explain_klv requests_by_key responses_by_key frame = some expl →
        cc.debug = true →
        st'.logged = st.logged ++ ["REQUEST SENT TO " ++ cc.host ++ ":" ++
          toString cc.port ++ " : \n" ++ expl]) := by
  unfold CommandCall.send
  rw [hc]
  cases hdb : cc.debug with
  | false =>
    refine ⟨_, rfl, rfl, rfl, fun _ => rfl, ?_⟩
    intro expl hexp habs
    exact absurd habs (by decide)
  | true =>
    obtain ⟨expl, hexp⟩ := Option.isSome_iff_exists.mp (hex hdb)
    simp only [if_pos rfl]
    rw [hexp]
    refine ⟨_, rfl, rfl, rfl, ?_, ?_⟩
    · intro habs
      exact absurd habs (by decide)
    · intro expl2 hexp2 _
      cases hexp2
      rfl

/-- Witness for C8: the debug-enabled sample call transmits exactly the
spec §8 frame and returns 0. -/
theorem send_transmits_frame_witness :
    (CommandCall.send exCallDebug exRequestCatalog exEmptyCatalog
        ([42, 7] : List Nat) [] { request_id := 0, sent := [], logged := [] }).1 =
      some 0 ∧
    (CommandCall.send exCallDebug exRequestCatalog exEmptyCatalog
        ([42, 7] : List Nat) [] { request_id := 0, sent := [], logged := [] }).2.sent =
      [[0x06, 0x0E, 0x2B, 0x34, 0x02, 0x05, 0x01, 0x0A, 0x0E, 0x10,
        0x01, 0x01, 0x01, 0xAA, 0xBB, 0xCC, 9, 0, 0, 0, 1, 0, 0, 0, 42, 7]] := by
  obtain ⟨st', h1, h2, h3, h4, h5⟩ :=
    send_transmits_frame_and_returns_zero exCallDebug exRequestCatalog exEmptyCatalog
      [42, 7] [] { request_id := 0, sent := [], logged := [] }
      [0x06, 0x0E, 0x2B, 0x34, 0x02, 0x05, 0x01, 0x0A, 0x0E, 0x10,
        0x01, 0x01, 0x01, 0xAA, 0xBB, 0xCC, 9, 0, 0, 0, 1, 0, 0, 0, 42, 7] 1
      (by rfl) (fun _ => by rfl)
  rw [h1]
  exact ⟨rfl, h2.trans (List.nil_append _)⟩

end Doremi
